import Mathlib

/-!
Verification of `src/data/export_to_protobuf.py` from montevive/go-name-detector.

The script loads two pickled mappings (first names, last names), converts each
entry into a protobuf `NameDataset` message, serializes three outputs
(first-only, last-only, combined), compresses them to disk and reports.

Python dictionaries are embedded as association lists kept in insertion
order; dictionary key uniqueness becomes a `Nodup` hypothesis where a claim
needs it.  Probability values are only ever copied verbatim by the script, so
they are embedded as `Rat`; ranks are `Int` (with `Option Int` for a possibly
`None` rank value in the input).
-/

namespace NameExport

/-- One entry's attribute structure in the pickled input mapping: the optional
`country`, `gender` and `rank` sub-dictionaries.  `none` models an absent key,
for which `data.get` with a default yields the empty dictionary. -/
structure Attributes where
  country : Option (List (String × Rat))
  gender : Option (List (String × Rat))
  rank : Option (List (String × Option Int))
deriving DecidableEq

/-- The pickled input: a Python dict from name to attributes, in iteration
(insertion) order. -/
abbrev Mapping := List (String × Attributes)

/-- A protobuf `NameDataset.entries` element: `entry.name`, and the three
protobuf map fields `entry.country`, `entry.gender`, `entry.rank`. -/
structure NameRecord where
  name : String
  country : List (String × Rat)
  gender : List (String × Rat)
  rank : List (String × Int)
deriving DecidableEq

/-- The protobuf `NameDataset` message: a repeated field of entries. -/
structure NameDataset where
  entries : List NameRecord
deriving DecidableEq

/-- The protobuf `CombinedNameDataset` message with its `first_names` and
`last_names` submessage fields. -/
structure CombinedNameDataset where
  first_names : NameDataset
  last_names : NameDataset
deriving DecidableEq

/-- Assignment `m[k] = v` into a (protobuf or Python) map embedded as an
association list: overwrite the binding if the key is present, else append. -/
def mapSet {α : Type} : List (String × α) → String → α → List (String × α)
  | [], k, v => [(k, v)]
  | (k', v') :: t, k, v => if k' = k then (k, v) :: t else (k', v') :: mapSet t k v

/-- Map lookup on an association list. -/
def mapFind {α : Type} : List (String × α) → String → Option α
  | [], _ => none
  | (k', v') :: t, k => if k' = k then some v' else mapFind t k

/-- The inner copy loop `for k, v in items: entry.m[k] = v`, starting from the
empty protobuf map. -/
def buildMap {α : Type} (items : List (String × α)) : List (String × α) :=
  items.foldl (fun acc kv => mapSet acc kv.1 kv.2) []

/-- The rank copy loop: `for country, rank in items: if rank is not None:
entry.rank[country] = rank`, starting from the empty protobuf map. -/
def buildRank (items : List (String × Option Int)) : List (String × Int) :=
  items.foldl (fun acc kv =>
    match kv.2 with
    | some r => mapSet acc kv.1 r
    | none => acc) []

/-- The body of the conversion loop (lines 44-59 and 63-78 of the script):
`entry = dataset.entries.add(); entry.name = name;` then the three copy
loops over the `country`, `gender` and `rank` sub-dictionaries, each
defaulted to empty by `data.get`. -/
def convertEntry (name : String) (data : Attributes) : NameRecord :=
  { name := name
    country := buildMap (data.country.getD [])
    gender := buildMap (data.gender.getD [])
    rank := buildRank (data.rank.getD []) }

/-- The first-name conversion loop (lines 43-59): builds `first_dataset` by
appending one converted entry per item of `first_names`. -/
def convertFirstNames : Mapping → List NameRecord
  | [] => []
  | (name, data) :: rest => convertEntry name data :: convertFirstNames rest

/-- The last-name conversion loop (lines 62-78): textually the same loop as
the first-name one, run over `last_names` to build `last_dataset`. -/
def convertLastNames : Mapping → List NameRecord
  | [] => []
  | (name, data) :: rest => convertEntry name data :: convertLastNames rest

/-- `first_dataset` as built by the script from the loaded first-name map. -/
def firstDataset (first_names : Mapping) : NameDataset :=
  ⟨convertFirstNames first_names⟩

/-- `last_dataset` as built by the script from the loaded last-name map. -/
def lastDataset (last_names : Mapping) : NameDataset :=
  ⟨convertLastNames last_names⟩

/-- `combined`: a `CombinedNameDataset` whose fields are `CopyFrom` copies of
the two datasets (lines 81-83). -/
def mkCombined (fd ld : NameDataset) : CombinedNameDataset :=
  { first_names := fd, last_names := ld }

/-! ### Association-list lemmas -/

theorem mapFind_mapSet_self {α : Type} (l : List (String × α)) (k : String) (v : α) :
    mapFind (mapSet l k v) k = some v := by
  induction l with
  | nil => simp [mapSet, mapFind]
  | cons hd t ih =>
    obtain ⟨k', v'⟩ := hd
    by_cases h : k' = k
    · simp [mapSet, mapFind, h]
    · simp [mapSet, mapFind, h, ih]

theorem mapFind_mapSet_other {α : Type} (l : List (String × α)) (k p : String) (v : α)
    (hne : p ≠ k) : mapFind (mapSet l k v) p = mapFind l p := by
  have hne' : ¬k = p := fun h => hne h.symm
  induction l with
  | nil => simp [mapSet, mapFind, hne']
  | cons hd t ih =>
    obtain ⟨k', v'⟩ := hd
    by_cases h : k' = k
    · subst h
      simp [mapSet, mapFind, hne']
    · simp [mapSet, mapFind, h, ih]

/-- Inserting a fresh key into an association-list map appends it. -/
theorem mapSet_fresh {α : Type} (l : List (String × α)) (k : String) (v : α)
    (h : k ∉ l.map Prod.fst) : mapSet l k v = l ++ [(k, v)] := by
  induction l with
  | nil => rfl
  | cons hd t ih =>
    obtain ⟨k', v'⟩ := hd
    simp only [List.map_cons, List.mem_cons] at h
    push_neg at h
    have hne : ¬k' = k := fun hh => h.1 hh.symm
    simp [mapSet, hne, ih h.2]

/-- The copy loop over a map with distinct keys reproduces it verbatim. -/
theorem buildMap_eq {α : Type} (items : List (String × α))
    (h : (items.map Prod.fst).Nodup) : buildMap items = items := by
  suffices H : ∀ (l : List (String × α)) (acc : List (String × α)),
      (l.map Prod.fst).Nodup → (∀ k ∈ l.map Prod.fst, k ∉ acc.map Prod.fst) →
      l.foldl (fun acc kv => mapSet acc kv.1 kv.2) acc = acc ++ l by
    have := H items [] h (by simp)
    simpa [buildMap] using this
  intro l
  induction l with
  | nil => intro acc _ _; simp
  | cons hd t ih =>
    intro acc hnd hfresh
    obtain ⟨k, v⟩ := hd
    simp only [List.map_cons, List.nodup_cons] at hnd
    have hk : k ∉ acc.map Prod.fst := hfresh k (by simp)
    rw [List.foldl_cons]
    have hset : mapSet acc k v = acc ++ [(k, v)] := mapSet_fresh acc k v hk
    rw [hset, ih (acc ++ [(k, v)]) hnd.2]
    · simp
    · intro p hp
      simp only [List.map_append, List.mem_append]
      push_neg
      refine ⟨hfresh p (by simp [hp]), ?_⟩
      simp only [List.map_cons, List.map_nil, List.mem_singleton]
      intro hpk
      exact hnd.1 (hpk ▸ hp)

/-- The non-null filter on an input rank map, as a list operation. -/
def rankFilter (items : List (String × Option Int)) : List (String × Int) :=
  items.filterMap (fun kv => kv.2.map (fun r => (kv.1, r)))

/-- The rank copy loop over a map with distinct keys keeps exactly the
non-null bindings, in order. -/
theorem buildRank_eq (items : List (String × Option Int))
    (h : (items.map Prod.fst).Nodup) : buildRank items = rankFilter items := by
  suffices H : ∀ (l : List (String × Option Int)) (acc : List (String × Int)),
      (l.map Prod.fst).Nodup → (∀ k ∈ l.map Prod.fst, k ∉ acc.map Prod.fst) →
      l.foldl (fun acc kv =>
        match kv.2 with
        | some r => mapSet acc kv.1 r
        | none => acc) acc = acc ++ rankFilter l by
    have := H items [] h (by simp)
    simpa [buildRank] using this
  intro l
  induction l with
  | nil => intro acc _ _; simp [rankFilter]
  | cons hd t ih =>
    intro acc hnd hfresh
    obtain ⟨k, v⟩ := hd
    simp only [List.map_cons, List.nodup_cons] at hnd
    have hk : k ∉ acc.map Prod.fst := hfresh k (by simp)
    rw [List.foldl_cons]
    cases v with
    | none =>
      rw [ih acc hnd.2 (fun p hp => hfresh p (by simp [hp]))]
      simp [rankFilter]
    | some r =>
      have hset : mapSet acc k r = acc ++ [(k, r)] := mapSet_fresh acc k r hk
      simp only [hset]
      rw [ih (acc ++ [(k, r)]) hnd.2]
      · simp [rankFilter]
      · intro p hp
        simp only [List.map_append, List.mem_append]
        push_neg
        refine ⟨hfresh p (by simp [hp]), ?_⟩
        simp only [List.map_cons, List.map_nil, List.mem_singleton]
        intro hpk
        exact hnd.1 (hpk ▸ hp)

/-! ### Serialization -/

/-- Modelled from the spec: the wire alphabet of the serialized form.  The
generated protobuf bindings (`from proto import names_pb2`) are produced by
an external schema-compilation step and are not in the source tree; the spec
only requires that `serialize` deterministically encodes a dataset into the
binary schema format and that decoding recovers the message.  We model the
byte stream as a stream of typed tokens. -/
inductive Tok where
  | tnat (n : Nat)
  | tstr (s : String)
  | trat (q : Rat)
  | tint (i : Int)
deriving DecidableEq

/-- Modelled from the spec: encoding of a string-to-probability protobuf map
field as a length-prefixed sequence of key/value tokens. -/
def encRatPairs (l : List (String × Rat)) : List Tok :=
  Tok.tnat l.length :: l.foldr (fun kv acc => Tok.tstr kv.1 :: Tok.trat kv.2 :: acc) []

/-- Modelled from the spec: encoding of a string-to-rank protobuf map field. -/
def encIntPairs (l : List (String × Int)) : List Tok :=
  Tok.tnat l.length :: l.foldr (fun kv acc => Tok.tstr kv.1 :: Tok.tint kv.2 :: acc) []

/-- Modelled from the spec: encoding of one `NameDataset.entries` element:
its name then its three map fields, in schema order. -/
def encRecord (r : NameRecord) : List Tok :=
  Tok.tstr r.name :: (encRatPairs r.country ++ encRatPairs r.gender ++ encIntPairs r.rank)

/-- Modelled from the spec: `dataset.SerializeToString()` — a deterministic
encoding of the repeated `entries` field, preserving order. -/
def NameDataset.SerializeToString (d : NameDataset) : List Tok :=
  Tok.tnat d.entries.length :: d.entries.foldr (fun r acc => encRecord r ++ acc) []

/-- Modelled from the spec: `combined.SerializeToString()` — the two
submessage fields `first_names` and `last_names` in schema order. -/
def CombinedNameDataset.SerializeToString (c : CombinedNameDataset) : List Tok :=
  c.first_names.SerializeToString ++ c.last_names.SerializeToString

/-- Modelled from the spec: decoder for a probability map field; returns the
decoded map and the remaining stream. -/
def decRatPairs : Nat → List Tok → Option (List (String × Rat) × List Tok)
  | 0, ts => some ([], ts)
  | n + 1, Tok.tstr k :: Tok.trat v :: ts =>
    match decRatPairs n ts with
    | some (l, rest) => some ((k, v) :: l, rest)
    | none => none
  | _ + 1, _ => none

/-- Modelled from the spec: decoder for a rank map field. -/
def decIntPairs : Nat → List Tok → Option (List (String × Int) × List Tok)
  | 0, ts => some ([], ts)
  | n + 1, Tok.tstr k :: Tok.tint v :: ts =>
    match decIntPairs n ts with
    | some (l, rest) => some ((k, v) :: l, rest)
    | none => none
  | _ + 1, _ => none

/-- Modelled from the spec: decoder for a length-prefixed probability map. -/
def decRatMap : List Tok → Option (List (String × Rat) × List Tok)
  | Tok.tnat n :: ts => decRatPairs n ts
  | _ => none

/-- Modelled from the spec: decoder for a length-prefixed rank map. -/
def decIntMap : List Tok → Option (List (String × Int) × List Tok)
  | Tok.tnat n :: ts => decIntPairs n ts
  | _ => none

/-- Modelled from the spec: decoder for one dataset entry. -/
def decRecord (ts : List Tok) : Option (NameRecord × List Tok) :=
  match ts with
  | Tok.tstr name :: ts1 =>
    match decRatMap ts1 with
    | some (c, ts2) =>
      match decRatMap ts2 with
      | some (g, ts3) =>
        match decIntMap ts3 with
        | some (rk, ts4) => some (⟨name, c, g, rk⟩, ts4)
        | none => none
      | none => none
    | none => none
  | _ => none

/-- Modelled from the spec: decoder for a counted sequence of entries. -/
def decRecords : Nat → List Tok → Option (List NameRecord × List Tok)
  | 0, ts => some ([], ts)
  | n + 1, ts =>
    match decRecord ts with
    | some (r, rest) =>
      match decRecords n rest with
      | some (l, rest2) => some (r :: l, rest2)
      | none => none
    | none => none

/-- Modelled from the spec: decoder for a `NameDataset` message, returning
the remaining stream (used for submessage fields of the combined message). -/
def decDatasetAux : List Tok → Option (NameDataset × List Tok)
  | Tok.tnat n :: ts =>
    match decRecords n ts with
    | some (l, rest) => some (⟨l⟩, rest)
    | none => none
  | _ => none

/-- Modelled from the spec: parsing a serialized `NameDataset`, consuming the
whole stream. -/
def NameDataset.ParseFromString (ts : List Tok) : Option NameDataset :=
  match decDatasetAux ts with
  | some (d, []) => some d
  | _ => none

/-- Modelled from the spec: parsing a serialized `CombinedNameDataset`:
its `first_names` field then its `last_names` field, consuming the whole
stream. -/
def CombinedNameDataset.ParseFromString (ts : List Tok) : Option CombinedNameDataset :=
  match decDatasetAux ts with
  | some (fd, rest) =>
    match decDatasetAux rest with
    | some (ld, []) => some ⟨fd, ld⟩
    | _ => none
  | none => none

/-! ### Round-trip lemmas for the wire format -/

theorem decRatPairs_enc (l : List (String × Rat)) (rest : List Tok) :
    decRatPairs l.length
      (l.foldr (fun kv acc => Tok.tstr kv.1 :: Tok.trat kv.2 :: acc) [] ++ rest) =
      some (l, rest) := by
  induction l with
  | nil => simp [decRatPairs]
  | cons kv t ih => simp [decRatPairs, ih]

theorem decIntPairs_enc (l : List (String × Int)) (rest : List Tok) :
    decIntPairs l.length
      (l.foldr (fun kv acc => Tok.tstr kv.1 :: Tok.tint kv.2 :: acc) [] ++ rest) =
      some (l, rest) := by
  induction l with
  | nil => simp [decIntPairs]
  | cons kv t ih => simp [decIntPairs, ih]

theorem decRatMap_enc (l : List (String × Rat)) (rest : List Tok) :
    decRatMap (encRatPairs l ++ rest) = some (l, rest) := by
  simp [decRatMap, encRatPairs, decRatPairs_enc]

theorem decIntMap_enc (l : List (String × Int)) (rest : List Tok) :
    decIntMap (encIntPairs l ++ rest) = some (l, rest) := by
  simp [decIntMap, encIntPairs, decIntPairs_enc]

theorem decRecord_enc (r : NameRecord) (rest : List Tok) :
    decRecord (encRecord r ++ rest) = some (r, rest) := by
  obtain ⟨n, c, g, rk⟩ := r
  simp [decRecord, encRecord, List.append_assoc, decRatMap_enc, decIntMap_enc]

theorem decRecords_enc (l : List NameRecord) (rest : List Tok) :
    decRecords l.length (l.foldr (fun r acc => encRecord r ++ acc) [] ++ rest) =
      some (l, rest) := by
  induction l with
  | nil => simp [decRecords]
  | cons r t ih => simp [decRecords, List.append_assoc, decRecord_enc, ih]

theorem decDatasetAux_serialize (d : NameDataset) (rest : List Tok) :
    decDatasetAux (d.SerializeToString ++ rest) = some (d, rest) := by
  obtain ⟨entries⟩ := d
  simp [decDatasetAux, NameDataset.SerializeToString, decRecords_enc]

/-- Parsing a serialized dataset recovers it exactly. -/
theorem parse_serialize (d : NameDataset) :
    NameDataset.ParseFromString d.SerializeToString = some d := by
  have h := decDatasetAux_serialize d []
  rw [List.append_nil] at h
  simp [NameDataset.ParseFromString, h]

/-- Parsing a serialized combined message recovers both fields exactly. -/
theorem parse_serialize_combined (c : CombinedNameDataset) :
    CombinedNameDataset.ParseFromString c.SerializeToString = some c := by
  obtain ⟨fd, ld⟩ := c
  have h1 := decDatasetAux_serialize fd ld.SerializeToString
  have h2 := decDatasetAux_serialize ld []
  rw [List.append_nil] at h2
  simp [CombinedNameDataset.ParseFromString, CombinedNameDataset.SerializeToString, h1, h2]

/-! ### Run model: filesystem, events, and the script body -/

/-- Contents of a file in the model filesystem: a valid gzipped pickled
mapping, uncompressed serialized output bytes (`.pb`), gzip-compressed
serialized output bytes (`.pb.gz`), or contents that gzip/pickle cannot
decode. -/
inductive FileContent where
  | pickleGz (m : Mapping)
  | raw (w : List Tok)
  | gz (w : List Tok)
  | invalid
deriving DecidableEq

/-- Removal of a path's binding from an association list (file unlink). -/
def removeKey {α : Type} (l : List (String × α)) (p : String) : List (String × α) :=
  l.filter (fun kv => kv.1 != p)

/-- The model filesystem: path → content bindings, plus the paths where
opening for writing raises (not-writable destinations). -/
structure FS where
  files : List (String × FileContent)
  ro : List String
deriving DecidableEq

def FS.find (fs : FS) (p : String) : Option FileContent :=
  mapFind fs.files p

def FS.write (fs : FS) (p : String) (c : FileContent) : FS :=
  ⟨mapSet fs.files p c, fs.ro⟩

def FS.unlink (fs : FS) (p : String) : FS :=
  ⟨removeKey fs.files p, fs.ro⟩

/-- I/O events of a run, in order: file reads, file writes, file removals
and console messages. -/
inductive Event where
  | readF (p : String)
  | writeF (p : String)
  | unlinkF (p : String)
  | msg (s : String)
deriving DecidableEq

/-- The two error kinds of the spec: `LoadError` covers the exceptions gzip
or pickle raise on a missing/undecodable input, `WriteError` the exception
raised on an unwritable destination. -/
inductive PyError where
  | loadError
  | writeError
deriving DecidableEq

/-- Outcome of a run: a return value, or an uncaught exception. -/
inductive RunResult where
  | ok (b : Bool)
  | exn (e : PyError)
deriving DecidableEq

def firstPklPath : String := "names_dataset/v3/first_names.pkl.gz"

def lastPklPath : String := "names_dataset/v3/last_names.pkl.gz"

def firstPbPath : String := "data/first_names.pb"

def lastPbPath : String := "data/last_names.pb"

def combinedPbPath : String := "data/combined_names.pb"

def importErrorMsg : String :=
  "Error: protobuf classes not found. Please run protoc to generate Python classes first."

/-- `with gzip.open(path, 'rb') as f: pickle.load(f)` — succeeds exactly when
the path holds a valid gzipped pickled mapping, raises otherwise. -/
def loadPickle (fs : FS) (p : String) : Except PyError Mapping :=
  match fs.find p with
  | some (FileContent.pickleGz m) => Except.ok m
  | _ => Except.error PyError.loadError

/-- `open(path, "wb"); f.write(bytes)` — raises on an unwritable destination,
otherwise stores the bytes. -/
def writeFile (fs : FS) (p : String) (c : FileContent) : Except PyError FS :=
  if p ∈ fs.ro then Except.error PyError.writeError
  else Except.ok (fs.write p c)

/-- One iteration of the compression loop (lines 103-108): read the
uncompressed `.pb` file, write its gzip compression to `.pb.gz`, remove the
uncompressed version.  Returns the error (if any), the filesystem and the
events. -/
def compressStep (fs : FS) (p : String) : Option PyError × FS × List Event :=
  match fs.find p with
  | some (FileContent.raw w) =>
    if p ++ ".gz" ∈ fs.ro then (some PyError.writeError, fs, [Event.readF p])
    else
      ((none : Option PyError), (fs.write (p ++ ".gz") (FileContent.gz w)).unlink p,
        [Event.readF p, Event.writeF (p ++ ".gz"), Event.unlinkF p])
  | _ => (some PyError.loadError, fs, [])

/-- The `for filename in [...]` compression loop (lines 103-108). -/
def compressLoop : FS → List String → Option PyError × FS × List Event
  | fs, [] => (none, fs, [])
  | fs, p :: rest =>
    match compressStep fs p with
    | (none, fs1, evs1) =>
      let r := compressLoop fs1 rest
      (r.1, r.2.1, evs1 ++ r.2.2)
    | (some e, fs1, evs1) => (some e, fs1, evs1)

/-- The body of `export_to_protobuf()`: the schema-binding import check,
the two loads, the two conversion loops, the combined message, the three
writes, the compression loop, and the return value.  `protoAvailable` is
whether `from proto import names_pb2` succeeds; an uncaught Python exception
is modelled as `RunResult.exn` with the filesystem state and the event trace
at the raise point. -/
def export_to_protobuf (protoAvailable : Bool) (fs : FS) :
    RunResult × FS × List Event :=
  if protoAvailable then
    let ev0 := [Event.msg "Loading pickle files..."]
    match loadPickle fs firstPklPath with
    | Except.error e => (RunResult.exn e, fs, ev0 ++ [Event.readF firstPklPath])
    | Except.ok first_names =>
      match loadPickle fs lastPklPath with
      | Except.error e =>
        (RunResult.exn e, fs, ev0 ++ [Event.readF firstPklPath, Event.readF lastPklPath])
      | Except.ok last_names =>
        let fd := firstDataset first_names
        let ld := lastDataset last_names
        let combined := mkCombined fd ld
        let ev1 := ev0 ++ [Event.readF firstPklPath, Event.readF lastPklPath,
          Event.msg "Converting to protobuf format...", Event.msg "Writing protobuf files..."]
        match writeFile fs firstPbPath (FileContent.raw fd.SerializeToString) with
        | Except.error e => (RunResult.exn e, fs, ev1)
        | Except.ok fs1 =>
          match writeFile fs1 lastPbPath (FileContent.raw ld.SerializeToString) with
          | Except.error e => (RunResult.exn e, fs1, ev1 ++ [Event.writeF firstPbPath])
          | Except.ok fs2 =>
            match writeFile fs2 combinedPbPath (FileContent.raw combined.SerializeToString) with
            | Except.error e =>
              (RunResult.exn e, fs2, ev1 ++ [Event.writeF firstPbPath, Event.writeF lastPbPath])
            | Except.ok fs3 =>
              let ev2 := ev1 ++ [Event.writeF firstPbPath, Event.writeF lastPbPath,
                Event.writeF combinedPbPath, Event.msg "Compressing files..."]
              match compressLoop fs3 [firstPbPath, lastPbPath, combinedPbPath] with
              | (some e, fs4, evs) => (RunResult.exn e, fs4, ev2 ++ evs)
              | (none, fs4, evs) =>
                (RunResult.ok true, fs4, ev2 ++ evs ++ [Event.msg "Export complete!"])
  else
    (RunResult.ok false, fs, [Event.msg importErrorMsg])

/-! ### Filesystem lemmas -/

theorem mapFind_removeKey_self {α : Type} (l : List (String × α)) (p : String) :
    mapFind (removeKey l p) p = none := by
  induction l with
  | nil => rfl
  | cons hd t ih =>
    obtain ⟨k, v⟩ := hd
    by_cases h : k = p
    · simp [removeKey, h] at ih ⊢
      exact ih
    · simp only [removeKey, List.filter_cons] at ih ⊢
      simp [h, mapFind, ih]

theorem mapFind_removeKey_other {α : Type} (l : List (String × α)) (p q : String)
    (hne : q ≠ p) : mapFind (removeKey l p) q = mapFind l q := by
  induction l with
  | nil => rfl
  | cons hd t ih =>
    obtain ⟨k, v⟩ := hd
    by_cases h : k = p
    · subst h
      have : ¬k = q := fun hh => hne hh.symm
      simp only [removeKey, List.filter_cons] at ih ⊢
      simp [mapFind, this, ih]
    · simp only [removeKey, List.filter_cons] at ih ⊢
      by_cases h2 : k = q <;> simp [mapFind, h, h2, hne, ih]

theorem loadPickle_error (fs : FS) (p : String)
    (h : ∀ m, fs.find p ≠ some (FileContent.pickleGz m)) :
    loadPickle fs p = Except.error PyError.loadError := by
  unfold loadPickle
  split
  · rename_i m hm
    exact absurd hm (h m)
  · rfl

theorem loadPickle_ok (fs : FS) (p : String) (m : Mapping)
    (h : fs.find p = some (FileContent.pickleGz m)) :
    loadPickle fs p = Except.ok m := by
  unfold loadPickle
  rw [h]

/-! ### Conversion lemmas -/

/-- Well-formedness of one entry's attributes: a Python dict has distinct
keys, so each sub-dictionary's key list is duplicate-free. -/
def WFAttributes (a : Attributes) : Prop :=
  ((a.country.getD []).map Prod.fst).Nodup ∧
  ((a.gender.getD []).map Prod.fst).Nodup ∧
  ((a.rank.getD []).map Prod.fst).Nodup

instance (a : Attributes) : Decidable (WFAttributes a) := by
  unfold WFAttributes
  infer_instance

/-- Well-formedness of a loaded mapping: every entry's attributes are
well-formed. -/
def WFMapping (m : Mapping) : Prop := ∀ e ∈ m, WFAttributes e.2

instance (m : Mapping) : Decidable (WFMapping m) := by
  unfold WFMapping
  infer_instance

theorem convertFirstNames_eq_map (m : Mapping) :
    convertFirstNames m = m.map (fun p => convertEntry p.1 p.2) := by
  induction m with
  | nil => rfl
  | cons hd t ih =>
    obtain ⟨n, d⟩ := hd
    simp [convertFirstNames, ih]

theorem convertFirstNames_length (m : Mapping) :
    (convertFirstNames m).length = m.length := by
  rw [convertFirstNames_eq_map]
  simp

theorem convertFirstNames_get (m : Mapping) (i : Nat) (hi : i < m.length)
    (hi' : i < (convertFirstNames m).length) :
    (convertFirstNames m).get ⟨i, hi'⟩ =
      convertEntry (m.get ⟨i, hi⟩).1 (m.get ⟨i, hi⟩).2 := by
  induction m generalizing i with
  | nil => exact absurd hi (by simp)
  | cons hd t ih =>
    obtain ⟨n, d⟩ := hd
    cases i with
    | zero => rfl
    | succ j =>
      have hjt : j < t.length := Nat.lt_of_succ_lt_succ (by simpa using hi)
      have hjc : j < (convertFirstNames t).length := by
        rw [convertFirstNames_length]
        exact hjt
      exact ih j hjt hjc

theorem convertFirstNames_names (m : Mapping) :
    (convertFirstNames m).map NameRecord.name = m.map Prod.fst := by
  rw [convertFirstNames_eq_map, List.map_map]
  rfl

theorem rankFilter_mem (l : List (String × Option Int)) (c : String) (r : Int) :
    (c, r) ∈ rankFilter l ↔ (c, some r) ∈ l := by
  simp only [rankFilter, List.mem_filterMap]
  constructor
  · rintro ⟨⟨k, o⟩, hmem, hf⟩
    cases o with
    | none => simp at hf
    | some v =>
      simp only [Option.map_some', Option.some.injEq, Prod.mk.injEq] at hf
      obtain ⟨hk, hv⟩ := hf
      subst hk
      subst hv
      exact hmem
  · intro h
    exact ⟨(c, some r), h, rfl⟩

/-- In a map with duplicate-free keys, a key determines its value. -/
theorem mem_eq_of_nodupKeys {α : Type} (l : List (String × α))
    (h : (l.map Prod.fst).Nodup) (c : String) (a b : α)
    (ha : (c, a) ∈ l) (hb : (c, b) ∈ l) : a = b := by
  induction l with
  | nil => simp at ha
  | cons hd t ih =>
    obtain ⟨k, v⟩ := hd
    simp only [List.map_cons, List.nodup_cons] at h
    rcases List.mem_cons.mp ha with ha1 | ha2
    · rcases List.mem_cons.mp hb with hb1 | hb2
      · rw [Prod.mk.injEq] at ha1 hb1
        rw [ha1.2, hb1.2]
      · rw [Prod.mk.injEq] at ha1
        exact absurd (ha1.1 ▸ List.mem_map_of_mem Prod.fst hb2) h.1
    · rcases List.mem_cons.mp hb with hb1 | hb2
      · rw [Prod.mk.injEq] at hb1
        exact absurd (hb1.1 ▸ List.mem_map_of_mem Prod.fst ha2) h.1
      · exact ih h.2 ha2 hb2

/-! ### Claims about the conversion and serialization -/

/-- Claim C9: the first-name conversion loop and the last-name conversion loop
implement the same projection: on every input mapping they produce equal
output datasets. -/
theorem first_last_loops_agree (m : Mapping) :
    convertFirstNames m = convertLastNames m := by
  induction m with
  | nil => rfl
  | cons hd t ih =>
    obtain ⟨n, d⟩ := hd
    simp [convertFirstNames, convertLastNames, ih]

/-- Claim C3: the projection builds one record per entry, in the input mapping's
iteration order, whose name is the entry's key and whose country and gender
sub-mappings equal the input sub-mappings verbatim. -/
theorem projection_preserves_entries (m : Mapping) (hwf : WFMapping m) :
    (convertFirstNames m).length = m.length ∧
    ∀ i (hi : i < m.length) (hi' : i < (convertFirstNames m).length),
      ((convertFirstNames m).get ⟨i, hi'⟩).name = (m.get ⟨i, hi⟩).1 ∧
      ((convertFirstNames m).get ⟨i, hi'⟩).country = ((m.get ⟨i, hi⟩).2.country.getD []) ∧
      ((convertFirstNames m).get ⟨i, hi'⟩).gender = ((m.get ⟨i, hi⟩).2.gender.getD []) := by
  refine ⟨convertFirstNames_length m, ?_⟩
  intro i hi hi'
  rw [convertFirstNames_get m i hi hi']
  obtain ⟨hc, hg, _⟩ := hwf _ (m.get_mem i hi)
  exact ⟨rfl, buildMap_eq _ hc, buildMap_eq _ hg⟩

/-- The spec's Alice scenario input, used as a concrete sample mapping. -/
def aliceMapping : Mapping :=
  [("Alice", ⟨some [("US", (9 : Rat)/10)], some [("F", (1 : Rat))], some [("US", some 5)]⟩)]

theorem projection_preserves_entries_witness :
    WFMapping aliceMapping ∧
    ((convertFirstNames aliceMapping).length = aliceMapping.length ∧
      ∀ i (hi : i < aliceMapping.length) (hi' : i < (convertFirstNames aliceMapping).length),
        ((convertFirstNames aliceMapping).get ⟨i, hi'⟩).name =
          (aliceMapping.get ⟨i, hi⟩).1 ∧
        ((convertFirstNames aliceMapping).get ⟨i, hi'⟩).country =
          ((aliceMapping.get ⟨i, hi⟩).2.country.getD []) ∧
        ((convertFirstNames aliceMapping).get ⟨i, hi'⟩).gender =
          ((aliceMapping.get ⟨i, hi⟩).2.gender.getD [])) :=
  ⟨by decide, projection_preserves_entries aliceMapping (by decide)⟩

/-- Claim C7: every input entry yields exactly one output record, even when its
sub-mappings are absent or empty: the record appears with empty sub-mappings
rather than being omitted; on the spec's Smith input the output entry is
`name="Smith", country=US:0.5, gender empty, rank empty`. -/
theorem record_kept_with_empty_submaps (m : Mapping) :
    ((convertFirstNames m).map NameRecord.name = m.map Prod.fst) ∧
    (∀ n (data : Attributes), data.country.getD [] = [] → data.gender.getD [] = [] →
      data.rank.getD [] = [] → convertEntry n data = ⟨n, [], [], []⟩) ∧
    convertFirstNames [("Smith", ⟨some [("US", (1 : Rat)/2)], none, some [("US", none)]⟩)] =
      [⟨"Smith", [("US", (1 : Rat)/2)], [], []⟩] := by
  refine ⟨convertFirstNames_names m, ?_, ?_⟩
  · intro n data hc hg hr
    simp [convertEntry, hc, hg, hr, buildMap, buildRank]
  · rfl

theorem record_kept_with_empty_submaps_witness :
    convertEntry "X" ⟨none, none, none⟩ = ⟨"X", [], [], []⟩ :=
  (record_kept_with_empty_submaps []).2.1 "X" ⟨none, none, none⟩ rfl rfl rfl

/-- Claim C2: for every input entry with duplicate-free rank keys, a country whose
rank is null (or an absent rank sub-mapping altogether) is absent as a key of
the output rank map, and a country with a non-null rank is present with that
exact value. -/
theorem null_rank_absent (name : String) (data : Attributes)
    (hnd : ((data.rank.getD []).map Prod.fst).Nodup) :
    (data.rank = none → (convertEntry name data).rank = []) ∧
    (∀ c, (c, (none : Option Int)) ∈ data.rank.getD [] →
      c ∉ (convertEntry name data).rank.map Prod.fst) ∧
    (∀ c v, (c, some v) ∈ data.rank.getD [] → (c, v) ∈ (convertEntry name data).rank) := by
  have hbr : (convertEntry name data).rank = rankFilter (data.rank.getD []) :=
    buildRank_eq _ hnd
  refine ⟨?_, ?_, ?_⟩
  · intro h
    rw [hbr, h]
    rfl
  · intro c hc hmem
    rw [hbr] at hmem
    obtain ⟨⟨c2, v⟩, hpair, hfst⟩ := List.mem_map.mp hmem
    have hfst2 : c2 = c := hfst
    subst hfst2
    have hmem2 : (c2, some v) ∈ data.rank.getD [] := (rankFilter_mem _ _ _).mp hpair
    have heq := mem_eq_of_nodupKeys _ hnd c2 (none : Option Int) (some v) hc hmem2
    simp at heq
  · intro c v h
    rw [hbr]
    exact (rankFilter_mem _ _ _).mpr h

theorem null_rank_absent_witness :
    ((((Attributes.mk none none (some [("US", none), ("GB", some 5)])).rank.getD
        []).map Prod.fst).Nodup) ∧
    (((Attributes.mk none none (some [("US", none), ("GB", some 5)])).rank = none →
      (convertEntry "Smith"
        (Attributes.mk none none (some [("US", none), ("GB", some 5)]))).rank = []) ∧
    (∀ c, (c, (none : Option Int)) ∈
        (Attributes.mk none none (some [("US", none), ("GB", some 5)])).rank.getD [] →
      c ∉ (convertEntry "Smith"
        (Attributes.mk none none (some [("US", none), ("GB", some 5)]))).rank.map Prod.fst) ∧
    (∀ c v, (c, some v) ∈
        (Attributes.mk none none (some [("US", none), ("GB", some 5)])).rank.getD [] →
      (c, v) ∈ (convertEntry "Smith"
        (Attributes.mk none none (some [("US", none), ("GB", some 5)]))).rank)) :=
  ⟨by decide, null_rank_absent "Smith"
    (Attributes.mk none none (some [("US", none), ("GB", some 5)])) (by decide)⟩

/-- Claim C1: decoding the serialized output dataset reproduces exactly the input
mapping's names (in order), each entry's country and gender probability maps
verbatim, and exactly its non-null ranks. -/
theorem roundtrip_preserves_input (m : Mapping) (hwf : WFMapping m) :
    ∃ d : NameDataset,
      NameDataset.ParseFromString (firstDataset m).SerializeToString = some d ∧
      d.entries.map NameRecord.name = m.map Prod.fst ∧
      ∀ i (hi : i < m.length) (hi' : i < d.entries.length),
        (d.entries.get ⟨i, hi'⟩).country = ((m.get ⟨i, hi⟩).2.country.getD []) ∧
        (d.entries.get ⟨i, hi'⟩).gender = ((m.get ⟨i, hi⟩).2.gender.getD []) ∧
        ∀ c r, ((c, r) ∈ (d.entries.get ⟨i, hi'⟩).rank ↔
          (c, some r) ∈ ((m.get ⟨i, hi⟩).2.rank.getD [])) := by
  refine ⟨firstDataset m, parse_serialize _, convertFirstNames_names m, ?_⟩
  intro i hi hi'
  have hget : (firstDataset m).entries.get ⟨i, hi'⟩ =
      convertEntry (m.get ⟨i, hi⟩).1 (m.get ⟨i, hi⟩).2 := convertFirstNames_get m i hi hi'
  rw [hget]
  obtain ⟨hc, hg, hr⟩ := hwf _ (m.get_mem i hi)
  refine ⟨buildMap_eq _ hc, buildMap_eq _ hg, ?_⟩
  intro c r
  rw [show (convertEntry (m.get ⟨i, hi⟩).1 (m.get ⟨i, hi⟩).2).rank =
      rankFilter ((m.get ⟨i, hi⟩).2.rank.getD []) from buildRank_eq _ hr]
  exact rankFilter_mem _ c r

theorem roundtrip_preserves_input_witness :
    WFMapping aliceMapping ∧
    ∃ d : NameDataset,
      NameDataset.ParseFromString (firstDataset aliceMapping).SerializeToString = some d ∧
      d.entries.map NameRecord.name = aliceMapping.map Prod.fst ∧
      ∀ i (hi : i < aliceMapping.length) (hi' : i < d.entries.length),
        (d.entries.get ⟨i, hi'⟩).country = ((aliceMapping.get ⟨i, hi⟩).2.country.getD []) ∧
        (d.entries.get ⟨i, hi'⟩).gender = ((aliceMapping.get ⟨i, hi⟩).2.gender.getD []) ∧
        ∀ c r, ((c, r) ∈ (d.entries.get ⟨i, hi'⟩).rank ↔
          (c, some r) ∈ ((aliceMapping.get ⟨i, hi⟩).2.rank.getD [])) :=
  ⟨by decide, roundtrip_preserves_input aliceMapping (by decide)⟩

/-- Claim C4: decoding the serialized combined message yields a first-name dataset
and a last-name dataset identical (message-equal) to the two individually
serialized datasets of the same run. -/
theorem combined_decodes_to_components (m1 m2 : Mapping) :
    ∃ c : CombinedNameDataset,
      CombinedNameDataset.ParseFromString
        ((mkCombined (firstDataset m1) (lastDataset m2)).SerializeToString) = some c ∧
      c.first_names = firstDataset m1 ∧
      c.last_names = lastDataset m2 ∧
      NameDataset.ParseFromString ((firstDataset m1).SerializeToString) = some c.first_names ∧
      NameDataset.ParseFromString ((lastDataset m2).SerializeToString) = some c.last_names :=
  ⟨mkCombined (firstDataset m1) (lastDataset m2), parse_serialize_combined _, rfl, rfl,
    parse_serialize _, parse_serialize _⟩

/-! ### Claims about the run -/

/-- Claim C6: when the schema bindings cannot be imported, the run prints the
fatal message and returns failure with the filesystem untouched and no file
read, written or removed. -/
theorem import_failure_before_io (fs : FS) :
    export_to_protobuf false fs = (RunResult.ok false, fs, [Event.msg importErrorMsg]) ∧
    (∀ p, Event.readF p ∉ (export_to_protobuf false fs).2.2) ∧
    (∀ p, Event.writeF p ∉ (export_to_protobuf false fs).2.2) ∧
    (∀ p, Event.unlinkF p ∉ (export_to_protobuf false fs).2.2) := by
  refine ⟨rfl, ?_, ?_, ?_⟩ <;> intro p <;> simp [export_to_protobuf]

/-- Claim C5: when an input file is missing or not a valid gzipped pickled
mapping, the run raises `LoadError`, leaves the filesystem unchanged, and
writes no output file. -/
theorem missing_input_aborts_without_output (fs : FS)
    (h : (∀ m, fs.find firstPklPath ≠ some (FileContent.pickleGz m)) ∨
         (∀ m, fs.find lastPklPath ≠ some (FileContent.pickleGz m))) :
    (export_to_protobuf true fs).1 = RunResult.exn PyError.loadError ∧
    (export_to_protobuf true fs).2.1 = fs ∧
    ∀ p, Event.writeF p ∉ (export_to_protobuf true fs).2.2 := by
  by_cases hf : ∃ m, fs.find firstPklPath = some (FileContent.pickleGz m)
  · obtain ⟨m1, hm1⟩ := hf
    have hlast : ∀ m, fs.find lastPklPath ≠ some (FileContent.pickleGz m) := by
      rcases h with h1 | h2
      · exact absurd hm1 (h1 m1)
      · exact h2
    have hl1 := loadPickle_ok fs firstPklPath m1 hm1
    have hl2 := loadPickle_error fs lastPklPath hlast
    refine ⟨?_, ?_, ?_⟩ <;> simp [export_to_protobuf, hl1, hl2]
  · push_neg at hf
    have hl1 := loadPickle_error fs firstPklPath hf
    refine ⟨?_, ?_, ?_⟩ <;> simp [export_to_protobuf, hl1]

theorem missing_input_aborts_without_output_witness :
    ((∀ m, FS.find ⟨[], []⟩ firstPklPath ≠ some (FileContent.pickleGz m)) ∨
     (∀ m, FS.find ⟨[], []⟩ lastPklPath ≠ some (FileContent.pickleGz m))) ∧
    ((export_to_protobuf true ⟨[], []⟩).1 = RunResult.exn PyError.loadError ∧
     (export_to_protobuf true ⟨[], []⟩).2.1 = (⟨[], []⟩ : FS) ∧
     ∀ p, Event.writeF p ∉ (export_to_protobuf true ⟨[], []⟩).2.2) :=
  ⟨Or.inl (fun m hm => by simp [FS.find, mapFind] at hm),
   missing_input_aborts_without_output ⟨[], []⟩
     (Or.inl (fun m hm => by simp [FS.find, mapFind] at hm))⟩

theorem ne_gz (p : String) : p ++ ".gz" ≠ p := by
  intro h
  have hlen := congrArg String.length h
  rw [String.length_append] at hlen
  have h3 : (".gz" : String).length = 3 := rfl
  rw [h3] at hlen
  omega

/-- Claim C8: a successful compression step stores exactly the gzip compression of
the serialized bytes at the `.gz` path, removes the uncompressed
intermediate, and changes no other file. -/
theorem compress_step_effect (fs : FS) (p : String) (w : List Tok)
    (hfind : fs.find p = some (FileContent.raw w))
    (hw : p ++ ".gz" ∉ fs.ro) :
    ∃ fs' : FS,
      compressStep fs p =
        (none, fs', [Event.readF p, Event.writeF (p ++ ".gz"), Event.unlinkF p]) ∧
      fs'.find (p ++ ".gz") = some (FileContent.gz w) ∧
      fs'.find p = none ∧
      ∀ q, q ≠ p → q ≠ p ++ ".gz" → fs'.find q = fs.find q := by
  refine ⟨(fs.write (p ++ ".gz") (FileContent.gz w)).unlink p, ?_, ?_, ?_, ?_⟩
  · unfold compressStep
    rw [hfind]
    simp [hw]
  · show mapFind (removeKey (mapSet fs.files (p ++ ".gz") (FileContent.gz w)) p)
      (p ++ ".gz") = some (FileContent.gz w)
    rw [mapFind_removeKey_other _ _ _ (ne_gz p), mapFind_mapSet_self]
  · exact mapFind_removeKey_self _ _
  · intro q hq hq2
    show mapFind (removeKey (mapSet fs.files (p ++ ".gz") (FileContent.gz w)) p) q =
      mapFind fs.files q
    rw [mapFind_removeKey_other _ _ _ hq, mapFind_mapSet_other _ _ _ _ hq2]

theorem compress_step_effect_witness :
    FS.find ⟨[("data/first_names.pb", FileContent.raw [])], []⟩ "data/first_names.pb" =
      some (FileContent.raw []) ∧
    "data/first_names.pb" ++ ".gz" ∉ (FS.mk [("data/first_names.pb", FileContent.raw [])] []).ro ∧
    ∃ fs' : FS,
      compressStep ⟨[("data/first_names.pb", FileContent.raw [])], []⟩ "data/first_names.pb" =
        (none, fs', [Event.readF "data/first_names.pb",
          Event.writeF ("data/first_names.pb" ++ ".gz"),
          Event.unlinkF "data/first_names.pb"]) ∧
      fs'.find ("data/first_names.pb" ++ ".gz") = some (FileContent.gz []) ∧
      fs'.find "data/first_names.pb" = none ∧
      ∀ q, q ≠ "data/first_names.pb" → q ≠ "data/first_names.pb" ++ ".gz" →
        fs'.find q = FS.find ⟨[("data/first_names.pb", FileContent.raw [])], []⟩ q :=
  ⟨by decide, by simp,
   compress_step_effect ⟨[("data/first_names.pb", FileContent.raw [])], []⟩
     "data/first_names.pb" [] (by decide) (by simp)⟩

theorem runResult_cases (r : RunResult) :
    r = RunResult.ok true ∨ r = RunResult.ok false ∨
    r = RunResult.exn PyError.loadError ∨ r = RunResult.exn PyError.writeError := by
  rcases r with b | e
  · cases b
    · exact Or.inr (Or.inl rfl)
    · exact Or.inl rfl
  · cases e
    · exact Or.inr (Or.inr (Or.inl rfl))
    · exact Or.inr (Or.inr (Or.inr rfl))

theorem not_ok_false (fs : FS) :
    (export_to_protobuf true fs).1 ≠ RunResult.ok false := by
  intro h
  unfold export_to_protobuf at h
  rw [if_pos rfl] at h
  cases h1 : loadPickle fs firstPklPath with
  | error e =>
    rw [h1] at h
    simp at h
  | ok m1 =>
    rw [h1] at h
    dsimp only [] at h
    cases h2 : loadPickle fs lastPklPath with
    | error e =>
      rw [h2] at h
      simp at h
    | ok m2 =>
      rw [h2] at h
      dsimp only [] at h
      cases h3 : writeFile fs firstPbPath
          (FileContent.raw (firstDataset m1).SerializeToString) with
      | error e =>
        rw [h3] at h
        simp at h
      | ok fs1 =>
        rw [h3] at h
        dsimp only [] at h
        cases h4 : writeFile fs1 lastPbPath
            (FileContent.raw (lastDataset m2).SerializeToString) with
        | error e =>
          rw [h4] at h
          simp at h
        | ok fs2 =>
          rw [h4] at h
          dsimp only [] at h
          cases h5 : writeFile fs2 combinedPbPath
              (FileContent.raw
                (mkCombined (firstDataset m1) (lastDataset m2)).SerializeToString) with
          | error e =>
            rw [h5] at h
            simp at h
          | ok fs3 =>
            rw [h5] at h
            dsimp only [] at h
            rcases h6 : compressLoop fs3 [firstPbPath, lastPbPath, combinedPbPath]
              with ⟨oe, fs4, evs⟩
            rw [h6] at h
            cases oe with
            | none => simp at h
            | some e => simp at h

/-- Claim C10: the run returns `False` exactly when the schema-binding import
fails; a completed run returns `True`, and every other failure surfaces as
an uncaught exception (`LoadError` or `WriteError`), never as a failure
return value. -/
theorem return_value_classification (pa : Bool) (fs : FS) :
    ((export_to_protobuf pa fs).1 = RunResult.ok false ↔ pa = false) ∧
    (pa = true →
      (export_to_protobuf pa fs).1 = RunResult.ok true ∨
      (export_to_protobuf pa fs).1 = RunResult.exn PyError.loadError ∨
      (export_to_protobuf pa fs).1 = RunResult.exn PyError.writeError) := by
  cases pa
  · refine ⟨?_, ?_⟩
    · simp [export_to_protobuf]
    · intro h
      exact Bool.noConfusion h
  · refine ⟨⟨fun h => absurd h (not_ok_false fs), fun h => Bool.noConfusion h⟩, ?_⟩
    intro _
    rcases runResult_cases (export_to_protobuf true fs).1 with h | h | h | h
    · exact Or.inl h
    · exact absurd h (not_ok_false fs)
    · exact Or.inr (Or.inl h)
    · exact Or.inr (Or.inr h)

theorem return_value_classification_witness :
    (export_to_protobuf true ⟨[], []⟩).1 = RunResult.ok true ∨
    (export_to_protobuf true ⟨[], []⟩).1 = RunResult.exn PyError.loadError ∨
    (export_to_protobuf true ⟨[], []⟩).1 = RunResult.exn PyError.writeError :=
  (return_value_classification true ⟨[], []⟩).2 rfl

end NameExport
